import Mathlib

/-!
Verification of `temfpy/uncertainty_quantification.py`.

The module exposes four pure numeric functions: `borehole`, `ishigami`,
`eoq_model` and `simple_linear_function`.  We embed each one over the real
numbers.  Input vectors become `List ℝ`; the Python arity checks
(`assert len(x) == 8`, `assert len(x) == 3`, and the tuple unpacking
`m, c, s = x`) become `Option`-valued results: `none` models the raised
error.  `math.pi`, `np.log`, `np.sin`, `np.sqrt` become `Real.pi`,
`Real.log`, `Real.sin`, `Real.sqrt` (sine in radians, exactly as NumPy).
-/

namespace Temfpy

/-- Embedding of `borehole(x)`: asserts `len(x) == 8`, reads the eight
positional components, and computes `a / (b * (1 + c + d))` with
`a = 2*pi*T_u*(H_u - H_l)`, `b = log(r / r_w)`,
`c = (2*L*T_u) / (b * r_w**2 * K_w)`, `d = T_u / T_l`. -/
noncomputable def borehole (x : List ℝ) : Option ℝ :=
  if x.length = 8 then
    let r_w := x.getD 0 0
    let r := x.getD 1 0
    let T_u := x.getD 2 0
    let H_u := x.getD 3 0
    let T_l := x.getD 4 0
    let H_l := x.getD 5 0
    let L := x.getD 6 0
    let K_w := x.getD 7 0
    let a := 2 * Real.pi * T_u * (H_u - H_l)
    let b := Real.log (r / r_w)
    let c := (2 * L * T_u) / (b * r_w ^ 2 * K_w)
    let d := T_u / T_l
    some (a / (b * (1 + c + d)))
  else none

/-- Embedding of `ishigami(x, a=7, b=0.1)`: asserts `len(x) == 3` and
computes `(1 + b * x[2]**4) * sin(x[0]) + a * sin(x[1])**2`. -/
noncomputable def ishigami (x : List ℝ) (a : ℝ := 7) (b : ℝ := 0.1) :
    Option ℝ :=
  if x.length = 3 then
    some ((1 + b * x.getD 2 0 ^ 4) * Real.sin (x.getD 0 0) +
      a * Real.sin (x.getD 1 0) ^ 2)
  else none

/-- Embedding of `eoq_model(x, r=0.1)`: the tuple unpacking `m, c, s = x`
succeeds only on a vector of exactly three elements (otherwise Python
raises a `ValueError`, modelled as `none`), then computes
`sqrt((24 * m * s) / (r * c))`. -/
noncomputable def eoq_model (x : List ℝ) (r : ℝ := 0.1) : Option ℝ :=
  match x with
  | [m, c, s] => some (Real.sqrt ((24 * m * s) / (r * c)))
  | _ => none

/-- Embedding of `simple_linear_function(x)`: Python's builtin `sum`,
a left fold of `+` starting from `0`. -/
noncomputable def simple_linear_function (x : List ℝ) : ℝ :=
  x.foldl (fun acc v => acc + v) 0

lemma foldl_add_eq_add_sum (l : List ℝ) (acc : ℝ) :
    l.foldl (fun a v => a + v) acc = acc + l.sum := by
  induction l generalizing acc with
  | nil => simp
  | cons hd tl ih => simp [List.sum_cons, ih, add_assoc]

/-- C1: for every input vector of exactly 3 real numbers, unpacked
positionally as `(m, c, s)`, and every interest rate `r`, `eoq_model`
returns `sqrt((24*m*s)/(r*c))`. -/
theorem eoq_model_formula (m c s r : ℝ) :
    eoq_model [m, c, s] r = some (Real.sqrt ((24 * m * s) / (r * c))) := rfl

/-- C2: for every input vector of exactly 8 real numbers in positional
order `(r_w, r, T_u, H_u, T_l, H_l, L, K_w)`, `borehole` returns
`a / (b*(1 + c + d))` with `a = 2*pi*T_u*(H_u - H_l)`, `b = ln(r/r_w)`,
`c = (2*L*T_u)/(b*r_w^2*K_w)`, `d = T_u/T_l`. -/
theorem borehole_formula (r_w r T_u H_u T_l H_l L K_w : ℝ) :
    borehole [r_w, r, T_u, H_u, T_l, H_l, L, K_w] =
      some ((2 * Real.pi * T_u * (H_u - H_l)) /
        (Real.log (r / r_w) *
          (1 + (2 * L * T_u) / (Real.log (r / r_w) * r_w ^ 2 * K_w) +
            T_u / T_l))) := by
  simp [borehole]

/-- C3: for every input vector of exactly 3 real numbers and all
parameters `a` and `b`, `ishigami` returns
`(1 + b*x[2]^4)*sin(x[0]) + a*sin(x[1])^2`, with sine in radians
(`Real.sin` is the radian sine). -/
theorem ishigami_formula (x0 x1 x2 a b : ℝ) :
    ishigami [x0, x1, x2] a b =
      some ((1 + b * x2 ^ 4) * Real.sin x0 + a * Real.sin x1 ^ 2) := by
  simp [ishigami]

/-- C4: `borehole` succeeds exactly on vectors of length 8, `ishigami`
exactly on length 3, and `eoq_model` exactly on length 3; on any other
length each raises (returns `none`). -/
theorem arity_checks (x : List ℝ) (a b r : ℝ) :
    ((borehole x).isSome ↔ x.length = 8) ∧
    ((ishigami x a b).isSome ↔ x.length = 3) ∧
    ((eoq_model x r).isSome ↔ x.length = 3) := by
  refine ⟨?_, ?_, ?_⟩
  · by_cases h : x.length = 8 <;> simp [borehole, h]
  · by_cases h : x.length = 3 <;> simp [ishigami, h]
  · match x with
    | [] => simp [eoq_model]
    | [_] => simp [eoq_model]
    | [_, _] => simp [eoq_model]
    | [_, _, _] => simp [eoq_model]
    | _ :: _ :: _ :: _ :: _ => simp [eoq_model]

/-- C5: `simple_linear_function` equals the mathematical sum of its
input for every finite sequence of reals, and in particular equals `0`
on the empty sequence. -/
theorem simple_linear_function_is_sum :
    (∀ x : List ℝ, simple_linear_function x = x.sum) ∧
    simple_linear_function ([] : List ℝ) = 0 := by
  constructor
  · intro x
    simp [simple_linear_function, foldl_add_eq_add_sum]
  · rfl

/-- C6: on input `(1, 2, 3)` with the default rate `r = 0.1`, `eoq_model`
returns `sqrt 360`, which lies within `1e-9` of `18.973665961010276`. -/
theorem eoq_model_reference_example :
    eoq_model [1, 2, 3] 0.1 = some (Real.sqrt 360) ∧
    |Real.sqrt 360 - 18.973665961010276| < 1e-9 := by
  constructor
  · norm_num [eoq_model]
  · rw [abs_sub_lt_iff]
    constructor
    · have h : Real.sqrt 360 < 18.973665961010276 + 1e-9 := by
        rw [Real.sqrt_lt' (by norm_num)]
        norm_num
      linarith
    · have h : (18.973665961010276 - 1e-9 : ℝ) < Real.sqrt 360 := by
        rw [Real.lt_sqrt (by norm_num)]
        norm_num
      linarith

/-- C7 counterexample: with `m = 0`, `c = 1`, `r = 0.1`, raising the setup
cost from `s = 0` to `s = 1` leaves the result unchanged (both are
`sqrt 0 = 0`), so increasing `s` does not strictly increase the result
for all fixed `m, c, r`. -/
theorem eoq_model_mono_counterexample :
    (0 : ℝ) < 1 ∧ eoq_model [0, 1, 0] 0.1 = eoq_model [0, 1, 1] 0.1 := by
  refine ⟨by norm_num, ?_⟩
  norm_num [eoq_model]

/-- C7 amended: for positive `m`, `c`, `r` and `0 ≤ s1 < s2`, increasing
the setup cost strictly increases the result of `eoq_model`. -/
theorem eoq_model_mono_in_s (m c r s1 s2 : ℝ)
    (hm : 0 < m) (hc : 0 < c) (hr : 0 < r) (hs1 : 0 ≤ s1) (h : s1 < s2) :
    (eoq_model [m, c, s1] r).getD 0 < (eoq_model [m, c, s2] r).getD 0 := by
  simp only [eoq_model, Option.getD_some]
  apply Real.sqrt_lt_sqrt (by positivity)
  have hrc : 0 < r * c := mul_pos hr hc
  have hnum : 24 * m * s1 < 24 * m * s2 := by nlinarith
  exact (div_lt_div_iff_of_pos_right hrc).mpr hnum

/-- C7 witness: the hypotheses of `eoq_model_mono_in_s` hold at
`m = c = r = 1`, `s1 = 0`, `s2 = 1`, and there the conclusion holds. -/
theorem eoq_model_mono_in_s_witness :
    (0 : ℝ) < 1 ∧ (0 : ℝ) ≤ 0 ∧
    (eoq_model [1, 1, 0] 1).getD 0 < (eoq_model [1, 1, 1] 1).getD 0 :=
  ⟨by norm_num, le_refl 0,
    eoq_model_mono_in_s 1 1 1 0 1 (by norm_num) (by norm_num) (by norm_num)
      (le_refl 0) (by norm_num)⟩

/-- C8: all four library functions are deterministic pure mappings — two
evaluations at identical arguments give identical results. -/
theorem functions_deterministic (x y z w : List ℝ) (a b r : ℝ) :
    borehole x = borehole x ∧
    ishigami y a b = ishigami y a b ∧
    eoq_model z r = eoq_model z r ∧
    simple_linear_function w = simple_linear_function w :=
  ⟨rfl, rfl, rfl, rfl⟩

/-- C9: on input `[pi/2, 0, 0]` with defaults `a = 7`, `b = 0.1`,
`ishigami` returns `1`. -/
theorem ishigami_reference_example :
    ishigami [Real.pi / 2, 0, 0] 7 0.1 = some 1 := by
  norm_num [ishigami, Real.sin_pi_div_two, Real.sin_zero]

/-- C10: `ishigami` is even in its third coordinate: negating `x2` leaves
the result unchanged, for all parameters `a`, `b`. -/
theorem ishigami_even_in_x2 (x0 x1 x2 a b : ℝ) :
    ishigami [x0, x1, -x2] a b = ishigami [x0, x1, x2] a b := by
  simp only [ishigami]
  norm_num
  exact Or.inl (Or.inl (Even.neg_pow ⟨2, rfl⟩ x2))

end Temfpy
